import Mathlib

/-!
Verification of the gait-controller / simulation core of `GaitAdaptation`
(`limbo_old/exp/gaitopt/simulation.cpp`).

The C++ core is shallowly embedded: the per-joint oscillator
(`Simulation::procedure`, lines 102-129) becomes pure real-valued
functions; `std::vector::at` bounds-checked access becomes an
`Except String` computation (an `error` models the thrown
`std::out_of_range`); the stepping loop `Simulation::run_conf`
(lines 78-92) becomes a fuel-indexed recursion over an abstract
physics world; `Simulation::add_blocks` (lines 29-76) becomes a map
over the list of random draws (the `mt19937` generator itself is
abstracted into the universally quantified draw list).

Floating point (`float`/`double`) is modelled by `ℝ`.
-/

namespace Gait

/-- Oscillator phase of one joint group, as computed in
`Simulation::procedure` (simulation.cpp lines 104-116): `a = gA*40`,
`theta = gTheta*1`, `b = gB*40 - 20`, `h = 4`, `f = gLast*2`,
amplitude deadband `if (a < 5) a = 0`, then
`phase = a*tanh(h*sin((f*pi)*(x+theta))) + b`. -/
noncomputable def jointPhase (gA gTheta gB gLast x : ℝ) : ℝ :=
  let a0 : ℝ := gA * 40
  let theta : ℝ := gTheta * 1
  let b : ℝ := gB * 40 - 20
  let h : ℝ := 4
  let f : ℝ := gLast * 2
  let a : ℝ := if a0 < 5 then 0 else a0
  a * Real.tanh (h * Real.sin ((f * Real.pi) * (x + theta))) + b

/-- Phase after the outer-joint amplification of simulation.cpp lines
118-120: joint groups 6 and 9 get `phase = phase * 1.8`. -/
noncomputable def emittedPhase (gA gTheta gB gLast x : ℝ) (i : ℕ) : ℝ :=
  let phase := jointPhase gA gTheta gB gLast x
  if i = 6 ∨ i = 9 then phase * 1.8 else phase

/-- Angle handed to `set_angle` in simulation.cpp lines 124-127:
`phase * M_PI / 180` (degrees to radians). -/
noncomputable def appliedAngle (gA gTheta gB gLast x : ℝ) (i : ℕ) : ℝ :=
  emittedPhase gA gTheta gB gLast x i * Real.pi / 180

/-- Modelled from the spec wording (sections 4.2 and 8, quoted by the
claims): `phase = a · tanh( h · sin( f·π·(x + theta) ) ) + b` with
`h = 4`, `a = paramA·40` after the deadband (`a < 5` is treated as
`0`), `theta = paramTheta·1`, `b = paramB·40 − 20`, and
`f = lastGene·2`. Kept separate from `jointPhase` so the claim's
formula can be compared against the code's. -/
noncomputable def claimPhase (paramA paramTheta paramB lastGene x : ℝ) : ℝ :=
  let h : ℝ := 4
  let a : ℝ := if paramA * 40 < 5 then 0 else paramA * 40
  let theta : ℝ := paramTheta * 1
  let b : ℝ := paramB * 40 - 20
  let f : ℝ := lastGene * 2
  a * Real.tanh (h * Real.sin (f * Real.pi * (x + theta))) + b

/-- Bounds-checked element access, embedding `data.at(n)` from
simulation.cpp lines 104-106: out of range throws
`std::out_of_range`, modelled as `Except.error`. -/
noncomputable def vecAt (data : List ℝ) (n : ℕ) : Except String ℝ :=
  if h : n < data.length then Except.ok (data.get ⟨n, h⟩)
  else Except.error "vector.at out_of_range"

/-- Embedding of `data.back()` from simulation.cpp line 109; calling
`back` on an empty vector is invalid, modelled as a distinct error. -/
noncomputable def vecBack (data : List ℝ) : Except String ℝ :=
  match data.getLast? with
  | some v => Except.ok v
  | none => Except.error "vector.back on empty vector"

/-- One iteration of the servo loop of `Simulation::procedure`
(simulation.cpp lines 103-128) for joint group `i`: read genes
`3i, 3i+1, 3i+2` (the `genptr++` sequence) and the trailing frequency
gene, and emit the `set_angle` commands: one command for body joints
(`i ≤ 1`), two commands (joints `i` and `i+4`) otherwise. -/
noncomputable def jointCommands (data : List ℝ) (x : ℝ) (i : ℕ) :
    Except String (List (ℕ × ℝ)) :=
  match vecAt data (3*i) with
  | Except.error e => Except.error e
  | Except.ok gA =>
    match vecAt data (3*i+1) with
    | Except.error e => Except.error e
    | Except.ok gTheta =>
      match vecAt data (3*i+2) with
      | Except.error e => Except.error e
      | Except.ok gB =>
        match vecBack data with
        | Except.error e => Except.error e
        | Except.ok gLast =>
          Except.ok (if i ≤ 1 then [(i, appliedAngle gA gTheta gB gLast x i)]
            else [(i, appliedAngle gA gTheta gB gLast x i),
                  (i+4, appliedAngle gA gTheta gB gLast x i)])

/-- Servo loop of `Simulation::procedure` (simulation.cpp line 103):
`for (i = 0; i < servos.size() - 4; ++i)`, here phrased with the
current index `i` and the number `n` of remaining joint groups. The
commands of all groups are concatenated in loop order; the first
out-of-range gene access aborts the loop with its error, exactly as a
thrown `std::out_of_range` ends the C++ loop. -/
noncomputable def servoLoop (data : List ℝ) (x : ℝ) : ℕ → ℕ → Except String (List (ℕ × ℝ))
  | _, 0 => Except.ok []
  | i, n+1 =>
    match jointCommands data x i with
    | Except.error e => Except.error e
    | Except.ok c =>
      match servoLoop data x (i+1) n with
      | Except.error e => Except.error e
      | Except.ok rest => Except.ok (c ++ rest)

/-- All `set_angle` commands of one `Simulation::procedure` call with
`g` joint groups (`g = servos.size() - 4` in the source). -/
noncomputable def servoCommands (data : List ℝ) (x : ℝ) (g : ℕ) :
    Except String (List (ℕ × ℝ)) :=
  servoLoop data x 0 g

/-- Claim C3: amplitude deadband — whenever the scaled amplitude
`gA·40` is strictly below `5`, the computed phase collapses to the
bias term `b = gB·40 − 20`, for every time `x` and all other
parameters (simulation.cpp lines 111-116). -/
theorem C3_amplitude_deadband (gA gTheta gB gLast x : ℝ)
    (h : gA * 40 < 5) :
    jointPhase gA gTheta gB gLast x = gB * 40 - 20 := by
  unfold jointPhase
  simp only [if_pos h, zero_mul, zero_add]

/-- Witness for C3 at `gA = 0`, `gB = 1`, `x = 0`. -/
theorem C3_amplitude_deadband_witness :
    (0:ℝ) * 40 < 5 ∧ jointPhase 0 1 1 1 0 = 1 * 40 - 20 :=
  ⟨by norm_num, C3_amplitude_deadband 0 1 1 1 0 (by norm_num)⟩

/-- Claim C4: outer-joint amplification — for joint group index 6 or
9, and only for those indices, the emitted phase is `1.8` times the
phase an otherwise-identical joint group at a non-amplified index
emits; the factor multiplies the full phase, bias included
(simulation.cpp lines 118-120). -/
theorem C4_outer_amplification (gA gTheta gB gLast x : ℝ) (i j : ℕ)
    (hi : i = 6 ∨ i = 9) (hj : ¬(j = 6 ∨ j = 9)) :
    emittedPhase gA gTheta gB gLast x i =
      1.8 * emittedPhase gA gTheta gB gLast x j ∧
    emittedPhase gA gTheta gB gLast x j = jointPhase gA gTheta gB gLast x := by
  unfold emittedPhase
  rw [if_pos hi, if_neg hj]
  exact ⟨mul_comm _ _, rfl⟩

/-- Witness for C4 at `i = 6`, `j = 0`. -/
theorem C4_outer_amplification_witness :
    emittedPhase 1 1 1 1 0 6 = 1.8 * emittedPhase 1 1 1 1 0 0 ∧
    emittedPhase 1 1 1 1 0 0 = jointPhase 1 1 1 1 0 :=
  C4_outer_amplification 1 1 1 1 0 6 0 (Or.inl rfl) (by decide)

/-- Inversion for a successful `jointCommands` call: the emitted list
is one command for `i ≤ 1` and a mirrored pair otherwise, with one
shared angle. -/
theorem jointCommands_shape (data : List ℝ) (x : ℝ) (i : ℕ) (cmds : List (ℕ × ℝ))
    (h : jointCommands data x i = Except.ok cmds) :
    ∃ ang, cmds = if i ≤ 1 then [(i, ang)] else [(i, ang), (i+4, ang)] := by
  cases hA : vecAt data (3*i) with
  | error e => simp [jointCommands, hA] at h
  | ok gA =>
  cases hT : vecAt data (3*i+1) with
  | error e => simp [jointCommands, hA, hT] at h
  | ok gTheta =>
  cases hB : vecAt data (3*i+2) with
  | error e => simp [jointCommands, hA, hT, hB] at h
  | ok gB =>
  cases hL : vecBack data with
  | error e => simp [jointCommands, hA, hT, hB, hL] at h
  | ok gLast =>
    refine ⟨appliedAngle gA gTheta gB gLast x i, ?_⟩
    simp only [jointCommands, hA, hT, hB, hL, Except.ok.injEq] at h
    split at h <;> split <;> first | exact h.symm | omega

/-- Claim C1: phase formula of the controller. Given that each gene
read by `Simulation::procedure` for joint group `i` succeeds
(`gA, gTheta, gB` at offsets `3i, 3i+1, 3i+2`, frequency gene
`gLast = data.back()`, the same last element whatever `i` is), the
phase computed by the code equals the spec formula
`a·tanh(4·sin(f·π·(x+theta))) + b` with `a = gA·40` after the
deadband, `theta = gTheta·1`, `b = gB·40 − 20`, `f = gLast·2`; and
every angle handed to a physical joint is the (possibly outer-joint
amplified, claim C4) phase times `π/180`. -/
theorem C1_phase_formula (data : List ℝ) (x : ℝ) (i : ℕ) (gA gTheta gB gLast : ℝ)
    (hA : vecAt data (3*i) = Except.ok gA)
    (hT : vecAt data (3*i+1) = Except.ok gTheta)
    (hB : vecAt data (3*i+2) = Except.ok gB)
    (hL : vecBack data = Except.ok gLast) :
    jointPhase gA gTheta gB gLast x = claimPhase gA gTheta gB gLast x ∧
    (∃ cmds, jointCommands data x i = Except.ok cmds ∧ cmds ≠ [] ∧
      ∀ p ∈ cmds, p.2 = emittedPhase gA gTheta gB gLast x i * (Real.pi / 180)) := by
  constructor
  · rfl
  · have hjc : jointCommands data x i =
        Except.ok (if i ≤ 1 then [(i, appliedAngle gA gTheta gB gLast x i)]
          else [(i, appliedAngle gA gTheta gB gLast x i),
                (i+4, appliedAngle gA gTheta gB gLast x i)]) := by
      simp only [jointCommands, hA, hT, hB, hL]
    refine ⟨_, hjc, ?_, ?_⟩
    · split <;> simp
    · intro p hp
      have hangle : appliedAngle gA gTheta gB gLast x i =
          emittedPhase gA gTheta gB gLast x i * (Real.pi / 180) := by
        unfold appliedAngle; ring
      split at hp <;> simp only [List.mem_singleton, List.mem_cons,
        List.not_mem_nil, or_false] at hp
      · rw [hp]; exact hangle
      · rcases hp with hp | hp <;> (rw [hp]; exact hangle)

/-- Witness for C1 on the vector `[1, 1, 1, 0.5]`, joint group 0. -/
theorem C1_phase_formula_witness :
    jointPhase 1 1 1 0.5 0 = claimPhase 1 1 1 0.5 0 ∧
    (∃ cmds, jointCommands [1, 1, 1, 0.5] 0 0 = Except.ok cmds ∧ cmds ≠ [] ∧
      ∀ p ∈ cmds, p.2 = emittedPhase 1 1 1 0.5 0 0 * (Real.pi / 180)) :=
  C1_phase_formula [1, 1, 1, 0.5] 0 0 1 1 1 0.5 rfl rfl rfl rfl

/-- Claim C2: joint mapping. Whenever `Simulation::procedure` emits
commands for joint group `i`, an index `i ≤ 1` drives exactly one
physical joint, and any index `i > 1` drives physical joints `i` and
`i+4` with the numerically identical angle in the same call
(simulation.cpp lines 123-128). -/
theorem C2_joint_mapping (data : List ℝ) (x : ℝ) (i : ℕ) (cmds : List (ℕ × ℝ))
    (h : jointCommands data x i = Except.ok cmds) :
    (i ≤ 1 → ∃ ang, cmds = [(i, ang)]) ∧
    (1 < i → ∃ ang, cmds = [(i, ang), (i+4, ang)]) := by
  obtain ⟨ang, hc⟩ := jointCommands_shape data x i cmds h
  constructor
  · intro hi; exact ⟨ang, by rw [hc, if_pos hi]⟩
  · intro hi; exact ⟨ang, by rw [hc, if_neg (by omega)]⟩

/-- Witness for C2 at joint group 2 on a nine-gene vector. -/
theorem C2_joint_mapping_witness :
    ((2:ℕ) ≤ 1 → ∃ ang,
      ([(2, appliedAngle 1 1 1 1 0 2), (6, appliedAngle 1 1 1 1 0 2)] : List (ℕ × ℝ))
        = [(2, ang)]) ∧
    (1 < 2 → ∃ ang,
      ([(2, appliedAngle 1 1 1 1 0 2), (6, appliedAngle 1 1 1 1 0 2)] : List (ℕ × ℝ))
        = [(2, ang), (6, ang)]) :=
  C2_joint_mapping [1, 1, 1, 1, 1, 1, 1, 1, 1] 0 2 _ rfl

/-- A joint group whose three genes are in range is processed without
an exception. -/
theorem jointCommands_isOk (data : List ℝ) (x : ℝ) (i : ℕ)
    (h : 3*i+2 < data.length) :
    ∃ c, jointCommands data x i = Except.ok c := by
  have h0 : 3*i < data.length := by omega
  have h1 : 3*i+1 < data.length := by omega
  have hne : data ≠ [] := List.ne_nil_of_length_pos (by omega)
  obtain ⟨v, hv⟩ := Option.isSome_iff_exists.mp (List.getLast?_isSome.mpr hne)
  have eA : vecAt data (3*i) = Except.ok (data.get ⟨3*i, h0⟩) := dif_pos h0
  have eT : vecAt data (3*i+1) = Except.ok (data.get ⟨3*i+1, h1⟩) := dif_pos h1
  have eB : vecAt data (3*i+2) = Except.ok (data.get ⟨3*i+2, h⟩) := dif_pos h
  have eL : vecBack data = Except.ok v := by simp [vecBack, hv]
  simp only [jointCommands, eA, eT, eB, eL, Except.ok.injEq, exists_eq']

/-- A joint group one of whose genes is out of range aborts the call
with the bounds-check error of `vector::at`. -/
theorem jointCommands_isErr (data : List ℝ) (x : ℝ) (i : ℕ)
    (h : data.length < 3*i+3) :
    ∃ msg, jointCommands data x i = Except.error msg := by
  by_cases h0 : 3*i < data.length
  · by_cases h1 : 3*i+1 < data.length
    · have h2 : ¬ (3*i+2 < data.length) := by omega
      have eA : vecAt data (3*i) = Except.ok (data.get ⟨3*i, h0⟩) := dif_pos h0
      have eT : vecAt data (3*i+1) = Except.ok (data.get ⟨3*i+1, h1⟩) := dif_pos h1
      have eB : vecAt data (3*i+2) = Except.error "vector.at out_of_range" := dif_neg h2
      simp only [jointCommands, eA, eT, eB, Except.error.injEq, exists_eq']
    · have eA : vecAt data (3*i) = Except.ok (data.get ⟨3*i, h0⟩) := dif_pos h0
      have eT : vecAt data (3*i+1) = Except.error "vector.at out_of_range" := dif_neg h1
      simp only [jointCommands, eA, eT, Except.error.injEq, exists_eq']
  · have eA : vecAt data (3*i) = Except.error "vector.at out_of_range" := dif_neg h0
    simp only [jointCommands, eA, Except.error.injEq, exists_eq']

/-- The servo loop succeeds when every gene it will read is in range. -/
theorem servoLoop_isOk (data : List ℝ) (x : ℝ) :
    ∀ (n i : ℕ), 3*(i+n) ≤ data.length →
      ∃ l, servoLoop data x i n = Except.ok l := by
  intro n
  induction n with
  | zero => exact fun i _ => ⟨[], rfl⟩
  | succ m ih =>
    intro i h
    obtain ⟨c, hc⟩ := jointCommands_isOk data x i (by omega)
    obtain ⟨rest, hrest⟩ := ih (i+1) (by omega)
    exact ⟨c ++ rest, by simp [servoLoop, hc, hrest]⟩

/-- The servo loop raises an exception when the parameter vector is
too short for the joint groups it has to process. -/
theorem servoLoop_isErr (data : List ℝ) (x : ℝ) :
    ∀ (n i : ℕ), 1 ≤ n → data.length < 3*i + 3*n →
      ∃ msg, servoLoop data x i n = Except.error msg := by
  intro n
  induction n with
  | zero => intro i hn _; omega
  | succ m ih =>
    intro i _ hlen
    by_cases hok : 3*i+2 < data.length
    · obtain ⟨c, hc⟩ := jointCommands_isOk data x i hok
      obtain ⟨msg, hrest⟩ := ih (i+1) (by omega) (by omega)
      exact ⟨msg, by simp [servoLoop, hc, hrest]⟩
    · obtain ⟨msg, hjc⟩ := jointCommands_isErr data x i (by omega)
      exact ⟨msg, by simp [servoLoop, hjc]⟩

/-- Claim C8, amended: a parameter vector of length at least
`3·g + 1` makes one controller step run without error; a vector too
short for the joint count makes `vector::at`'s bounds check throw a
checked `std::out_of_range` (modelled as `Except.error`) — the code
does not perform an unchecked out-of-bounds read, but neither does it
fail with a descriptive error at the evaluate boundary. -/
theorem C8_parameter_bounds (data : List ℝ) (x : ℝ) (g : ℕ) :
    (3*g+1 ≤ data.length → ∃ cmds, servoCommands data x g = Except.ok cmds) ∧
    (1 ≤ g → data.length < 3*g → ∃ msg, servoCommands data x g = Except.error msg) := by
  constructor
  · intro h
    obtain ⟨l, hl⟩ := servoLoop_isOk data x g 0 (by omega)
    exact ⟨l, hl⟩
  · intro hg h
    obtain ⟨msg, hm⟩ := servoLoop_isErr data x g 0 hg (by omega)
    exact ⟨msg, hm⟩

/-- Counterexample input for C8 as stated: on the too-short vector
`[0.5]` with one joint group, the embedded `vector::at` bounds check
raises its checked out-of-range error — the failure is a defined,
checked exception, not an unchecked out-of-bounds access. -/
theorem C8_parameter_bounds_cex :
    servoCommands [(0.5:ℝ)] 0 1 = Except.error "vector.at out_of_range" := rfl

/-- Witness for C8: a seven-gene vector with two joint groups runs
clean; the one-gene vector with one joint group errors. -/
theorem C8_parameter_bounds_witness :
    (∃ cmds, servoCommands [1, 1, 1, 1, 1, 1, 1] 0 2 = Except.ok cmds) ∧
    (∃ msg, servoCommands [(0.5:ℝ)] 0 1 = Except.error msg) :=
  ⟨(C8_parameter_bounds [1, 1, 1, 1, 1, 1, 1] 0 2).1 (by simp),
   (C8_parameter_bounds [(0.5:ℝ)] 0 1).2 (by norm_num) (by simp)⟩

/-- Abstract interface of the physics/robot collaborators used by the
stepping loop (spec section 6): advancing the robot and the world by
one step, writing a joint target, and reading the robot's x
position. The loop is verified for every model of this interface. -/
structure WorldModel (W : Type) where
  robStep : ℝ → W → W
  envStep : ℝ → W → W
  setAngle : ℕ → ℝ → W → W
  posX : W → ℝ

/-- Mutable state of one `Simulation` instance as the loop sees it:
the elapsed clock `x` and the physics world. -/
structure SimState (W : Type) where
  x : ℝ
  world : W

/-- Modelled from the spec: `simulation.hh`, where the clock member
`x` is declared and initialised, is not under `src/`; the spec's
SimulationClock is the scalar elapsed time of the instance, so a
freshly constructed instance starts with zero elapsed time. -/
def initState {W : Type} (w : W) : SimState W :=
  ⟨0, w⟩

/-- One call of `Simulation::procedure` (simulation.cpp lines
94-129), headless: `x += step`, advance robot and environment by
`step`, then run the servo loop at the new clock value and apply each
emitted command with `set_angle`. An out-of-range gene access
propagates as the exception does in the source; no claim below reads
the world state after an exception, so the commands applied before a
throw are not tracked. -/
noncomputable def procedure {W : Type} (M : WorldModel W) (g : ℕ)
    (data : List ℝ) (step : ℝ) (s : SimState W) : Except String (SimState W) :=
  let x1 := s.x + step
  let w1 := M.envStep step (M.robStep step s.world)
  match servoCommands data x1 g with
  | Except.error e => Except.error e
  | Except.ok cmds =>
    Except.ok ⟨x1, cmds.foldl (fun w c => M.setAngle c.1 c.2 w) w1⟩

/-- The while loop of `Simulation::run_conf` (simulation.cpp lines
80-87), headless (the renderer abort poll is absent in headless
mode): while `x < step_limit`, call `procedure`. `step_limit` is an
`int` in the source. The recursion is indexed by fuel; `ok none`
means the fuel ran out with the condition still true, so a result
`ok none` at every fuel witnesses non-termination. -/
noncomputable def runLoop {W : Type} (M : WorldModel W) (g : ℕ)
    (data : List ℝ) (step : ℝ) (limit : ℤ) :
    ℕ → SimState W → Except String (Option (SimState W))
  | 0, s => if s.x < (limit : ℝ) then Except.ok none else Except.ok (some s)
  | fuel+1, s =>
    if s.x < (limit : ℝ) then
      match procedure M g data step s with
      | Except.error e => Except.error e
      | Except.ok s1 => runLoop M g data step limit fuel s1
    else Except.ok (some s)

/-- Value returned by `Simulation::run_conf` (simulation.cpp lines
89-91): on loop exit, read the robot position and return `-pos(0)`. -/
noncomputable def run_conf {W : Type} (M : WorldModel W) (g : ℕ)
    (data : List ℝ) (step : ℝ) (limit : ℤ) (fuel : ℕ) (s : SimState W) :
    Except String (Option ℝ) :=
  match runLoop M g data step limit fuel s with
  | Except.error e => Except.error e
  | Except.ok none => Except.ok none
  | Except.ok (some s1) => Except.ok (some (-(M.posX s1.world)))

/-- The while condition `x < step_limit` holds for the clock value
reached after each of the first `n` iterations' predecessors and
fails after the `n`-th, i.e. the loop body runs exactly `n` times
when started at clock `x0`. -/
def loopExitsAfter (x0 step limit : ℝ) (n : ℕ) : Prop :=
  (∀ k, k < n → x0 + k * step < limit) ∧ ¬ (x0 + n * step < limit)

/-- Under a well-formed parameter vector, `procedure` succeeds and
advances the clock by exactly `step`. -/
theorem procedure_ok {W : Type} (M : WorldModel W) (g : ℕ)
    (data : List ℝ) (step : ℝ) (s : SimState W)
    (hdata : 3*g ≤ data.length) :
    ∃ w1, procedure M g data step s = Except.ok ⟨s.x + step, w1⟩ := by
  obtain ⟨l, hl⟩ := servoLoop_isOk data (s.x + step) g 0 (by omega)
  have hsc : servoCommands data (s.x + step) g = Except.ok l := hl
  exact ⟨l.foldl (fun w c => M.setAngle c.1 c.2 w)
      (M.envStep step (M.robStep step s.world)),
    by simp only [procedure, hsc]⟩

/-- A loop that the exit bound says runs `n` more times does exactly
that: with enough fuel and a well-formed vector it exits normally
with the clock advanced by `n·step`. -/
theorem runLoop_exitsAt {W : Type} (M : WorldModel W) (g : ℕ)
    (data : List ℝ) (step : ℝ) (limit : ℤ)
    (hdata : 3*g ≤ data.length) :
    ∀ (n fuel : ℕ) (s : SimState W), n ≤ fuel →
      loopExitsAfter s.x step (limit : ℝ) n →
      ∃ s1, runLoop M g data step limit fuel s = Except.ok (some s1) ∧
        s1.x = s.x + n * step := by
  intro n
  induction n with
  | zero =>
    intro fuel s _ hexit
    have hstop : ¬ (s.x < (limit : ℝ)) := by
      have := hexit.2; simpa using this
    refine ⟨s, ?_, by simp⟩
    cases fuel with
    | zero => simp only [runLoop, if_neg hstop]
    | succ f => simp only [runLoop, if_neg hstop]
  | succ m ih =>
    intro fuel s hfuel hexit
    obtain ⟨f, rfl⟩ : ∃ f, fuel = f + 1 := ⟨fuel - 1, by omega⟩
    have hcond : s.x < (limit : ℝ) := by
      have := hexit.1 0 (by omega); simpa using this
    obtain ⟨w1, hw1⟩ := procedure_ok M g data step s hdata
    have hexit' : loopExitsAfter (s.x + step) step (limit : ℝ) m := by
      constructor
      · intro k hk
        have := hexit.1 (k+1) (by omega)
        push_cast at this ⊢
        linarith
      · intro hcontra
        apply hexit.2
        push_cast at hcontra ⊢
        linarith
    obtain ⟨s1, hs1, hx1⟩ := ih f ⟨s.x + step, w1⟩ (by omega) hexit'
    refine ⟨s1, ?_, ?_⟩
    · simp only [runLoop, if_pos hcond, hw1]
      exact hs1
    · rw [hx1]; push_cast; ring

/-- Completeness of `loopExitsAfter`: a normal exit of the fueled
loop determines an iteration count satisfying it, and the final clock
is the start clock plus that many steps. -/
theorem runLoop_exit_inv {W : Type} (M : WorldModel W) (g : ℕ)
    (data : List ℝ) (step : ℝ) (limit : ℤ)
    (hdata : 3*g ≤ data.length) :
    ∀ (fuel : ℕ) (s s1 : SimState W),
      runLoop M g data step limit fuel s = Except.ok (some s1) →
      ∃ n, n ≤ fuel ∧ loopExitsAfter s.x step (limit : ℝ) n ∧
        s1.x = s.x + n * step := by
  intro fuel
  induction fuel with
  | zero =>
    intro s s1 h
    by_cases hc : s.x < (limit : ℝ)
    · simp only [runLoop, if_pos hc] at h; cases h
    · simp only [runLoop, if_neg hc] at h
      cases h
      exact ⟨0, le_refl 0, ⟨fun k hk => absurd hk (by omega), by simpa using hc⟩, by simp⟩
  | succ f ih =>
    intro s s1 h
    by_cases hc : s.x < (limit : ℝ)
    · obtain ⟨w1, hw1⟩ := procedure_ok M g data step s hdata
      rw [runLoop, if_pos hc, hw1] at h
      obtain ⟨n, hn, hexit, hx⟩ := ih ⟨s.x + step, w1⟩ s1 h
      refine ⟨n+1, by omega, ⟨?_, ?_⟩, ?_⟩
      · intro k hk
        cases k with
        | zero => simpa using hc
        | succ j =>
          have := hexit.1 j (by omega)
          simp only at this
          push_cast at this ⊢
          linarith
      · intro hcontra
        apply hexit.2
        simp only
        push_cast at hcontra ⊢
        linarith
      · rw [hx]; simp only; push_cast; ring
    · rw [runLoop, if_neg hc] at h
      cases h
      exact ⟨0, by omega, ⟨fun k hk => absurd hk (by omega), by simpa using hc⟩, by simp⟩

/-- With a non-positive step and the clock below the limit, the while
condition stays true forever: every finite fuel is exhausted. -/
theorem runLoop_stuck {W : Type} (M : WorldModel W) (g : ℕ)
    (data : List ℝ) (step : ℝ) (limit : ℤ)
    (hdata : 3*g ≤ data.length) (hstep : step ≤ 0) :
    ∀ (fuel : ℕ) (s : SimState W), s.x < (limit : ℝ) →
      runLoop M g data step limit fuel s = Except.ok none := by
  intro fuel
  induction fuel with
  | zero => intro s hc; simp only [runLoop, if_pos hc]
  | succ f ih =>
    intro s hc
    obtain ⟨w1, hw1⟩ := procedure_ok M g data step s hdata
    rw [runLoop, if_pos hc, hw1]
    exact ih ⟨s.x + step, w1⟩ (by simp only; linarith)

/-- Claim C5: whenever the stepping loop runs to normal exit (step
budget exhausted), the fitness `run_conf` returns is exactly the
negation of the robot's terminal x position, with no other
transformation; in particular terminal `posX = 3.2` gives fitness
`-3.2` (simulation.cpp lines 89-91). -/
theorem C5_fitness_negation {W : Type} (M : WorldModel W) (g : ℕ)
    (data : List ℝ) (step : ℝ) (limit : ℤ) (fuel : ℕ) (s s1 : SimState W)
    (h : runLoop M g data step limit fuel s = Except.ok (some s1)) :
    run_conf M g data step limit fuel s = Except.ok (some (-(M.posX s1.world))) ∧
    (M.posX s1.world = 3.2 →
      run_conf M g data step limit fuel s = Except.ok (some (-(3.2:ℝ)))) := by
  have hrc : run_conf M g data step limit fuel s
      = Except.ok (some (-(M.posX s1.world))) := by
    simp only [run_conf, h]
  exact ⟨hrc, fun hp => by rw [hrc, hp]⟩

/-- World model with a trivial physics collaborator whose position is
the world value itself; used to instantiate loop theorems. -/
def idWorld : WorldModel ℝ :=
  ⟨fun _ w => w, fun _ w => w, fun _ _ w => w, fun w => w⟩

/-- Witness for C5: a zero-iteration run in a world resting at
`posX = 3.2` returns fitness `-3.2`. -/
theorem C5_fitness_negation_witness :
    run_conf idWorld 0 [] 1 0 0 ⟨0, 3.2⟩
      = Except.ok (some (-(idWorld.posX (3.2:ℝ)))) ∧
    (idWorld.posX (3.2:ℝ) = 3.2 →
      run_conf idWorld 0 [] 1 0 0 ⟨0, 3.2⟩ = Except.ok (some (-(3.2:ℝ)))) :=
  C5_fitness_negation idWorld 0 [] 1 0 0 ⟨0, 3.2⟩ ⟨0, 3.2⟩
    (by simp [runLoop])

/-- Claim C9: a `run` call with `stepLimit = 0` on a fresh instance
performs zero loop iterations — the state, clock and world included,
is returned untouched, so no physics step, no controller call and no
clock advance happened — and the fitness is computed from the initial
position (simulation.cpp lines 80-91; the zero initial clock is
modelled from the spec, see `initState`). -/
theorem C9_zero_step_limit {W : Type} (M : WorldModel W) (g : ℕ)
    (data : List ℝ) (step : ℝ) (fuel : ℕ) (w : W) :
    runLoop M g data step 0 fuel (initState w) = Except.ok (some (initState w)) ∧
    run_conf M g data step 0 fuel (initState w) = Except.ok (some (-(M.posX w))) := by
  have hstop : ¬ ((initState w).x < ((0:ℤ) : ℝ)) := by
    simp [initState]
  have hloop : runLoop M g data step 0 fuel (initState w)
      = Except.ok (some (initState w)) := by
    cases fuel with
    | zero => simp only [runLoop, if_neg hstop]
    | succ f => simp only [runLoop, if_neg hstop]
  have hloop2 : runLoop M g data step 0 fuel ⟨0, w⟩ = Except.ok (some ⟨0, w⟩) :=
    hloop
  exact ⟨hloop, by simp only [run_conf, initState, hloop2]⟩

/-- Claim C10: for a positive step the loop always terminates — some
finite fuel suffices for a normal exit returning a fitness — while
for a non-positive step with the clock below the limit the loop never
terminates (every fuel is exhausted); the source never checks
`step > 0`. Stated for well-formed parameter vectors, since a too
short vector ends the loop by the exception of claim C8 instead. -/
theorem C10_termination {W : Type} (M : WorldModel W) (g : ℕ)
    (data : List ℝ) (step : ℝ) (limit : ℤ) (s : SimState W)
    (hdata : 3*g ≤ data.length) :
    (0 < step → ∃ fuel s1,
      runLoop M g data step limit fuel s = Except.ok (some s1) ∧
      run_conf M g data step limit fuel s = Except.ok (some (-(M.posX s1.world)))) ∧
    (step ≤ 0 → s.x < (limit : ℝ) →
      ∀ fuel, runLoop M g data step limit fuel s = Except.ok none) := by
  constructor
  · intro hstep
    set n : ℕ := ⌈(((limit : ℝ) - s.x) / step)⌉₊ with hn
    have hexit : loopExitsAfter s.x step (limit : ℝ) n := by
      constructor
      · intro k hk
        have hklt : (k : ℝ) < ((limit : ℝ) - s.x) / step := by
          have := (Nat.lt_ceil).mp (hn ▸ hk)
          exact this
        have := (lt_div_iff₀ hstep).mp hklt
        linarith
      · intro hcontra
        have hle : ((limit : ℝ) - s.x) / step ≤ (n : ℝ) := Nat.le_ceil _
        have := (div_le_iff₀ hstep).mp hle
        linarith
    obtain ⟨s1, hs1, _⟩ :=
      runLoop_exitsAt M g data step limit hdata n n s (le_refl n) hexit
    exact ⟨n, s1, hs1, by simp only [run_conf, hs1]⟩
  · intro hstep hc fuel
    exact runLoop_stuck M g data step limit hdata hstep fuel s hc

/-- Witness for C10 with one joint group, three genes, unit step. -/
theorem C10_termination_witness :
    (0 < (1:ℝ) → ∃ fuel s1,
      runLoop idWorld 1 [1, 1, 1] 1 1 fuel ⟨0, 0⟩ = Except.ok (some s1) ∧
      run_conf idWorld 1 [1, 1, 1] 1 1 fuel ⟨0, 0⟩
        = Except.ok (some (-(idWorld.posX s1.world)))) ∧
    ((1:ℝ) ≤ 0 → (SimState.x ⟨0, (0:ℝ)⟩) < ((1:ℤ) : ℝ) →
      ∀ fuel, runLoop idWorld 1 [1, 1, 1] 1 1 fuel ⟨0, 0⟩ = Except.ok none) :=
  C10_termination idWorld 1 [1, 1, 1] 1 1 ⟨0, 0⟩ (by simp)

/-- Claim C6, amended: the elapsed clock is never reset between `run`
calls on one instance — the second call continues from the state the
first one left. Because `step_limit` is an `int`, no call with
`step = 0.01` can run exactly 10 iterations; with limits `1` and `2`
each call runs exactly 100 iterations, and the clock stands at `2.0`
after both calls, not at `1.0` twice. -/
theorem C6_clock_accumulation {W : Type} (M : WorldModel W) (g : ℕ)
    (data : List ℝ) (s0 : SimState W) (fuel1 fuel2 : ℕ)
    (hdata : 3*g ≤ data.length) (hx : s0.x = 0)
    (hf1 : 100 ≤ fuel1) (hf2 : 100 ≤ fuel2) :
    ∃ s1 s2, runLoop M g data 0.01 1 fuel1 s0 = Except.ok (some s1) ∧ s1.x = 1 ∧
      runLoop M g data 0.01 2 fuel2 s1 = Except.ok (some s2) ∧ s2.x = 2 := by
  have hexit1 : loopExitsAfter s0.x 0.01 ((1:ℤ) : ℝ) 100 := by
    rw [hx]
    constructor
    · intro k hk
      have hkr : (k : ℝ) < 100 := by exact_mod_cast hk
      push_cast
      linarith
    · push_cast
      norm_num
  obtain ⟨s1, hs1, hx1⟩ :=
    runLoop_exitsAt M g data 0.01 1 hdata 100 fuel1 s0 hf1 hexit1
  have hx1' : s1.x = 1 := by rw [hx1, hx]; norm_num
  have hexit2 : loopExitsAfter s1.x 0.01 ((2:ℤ) : ℝ) 100 := by
    rw [hx1']
    constructor
    · intro k hk
      have hkr : (k : ℝ) < 100 := by exact_mod_cast hk
      push_cast
      linarith
    · push_cast
      norm_num
  obtain ⟨s2, hs2, hx2⟩ :=
    runLoop_exitsAt M g data 0.01 2 hdata 100 fuel2 s1 hf2 hexit2
  have hx2' : s2.x = 2 := by rw [hx2, hx1']; norm_num
  exact ⟨s1, s2, hs1, hx1', hs2, hx2'⟩

/-- Counterexample input for C6 as stated: no integer `step_limit`
makes the loop with `step = 0.01` starting at clock `0` run exactly
10 iterations — any positive limit is at least `1`, and after 10
iterations the clock is only `0.1`, so the loop is still running;
a non-positive limit runs 0 iterations. The claim's scenario of two
10-iteration calls ending at clock `0.2` is therefore unrealizable. -/
theorem C6_clock_accumulation_cex :
    ¬ ∃ L : ℤ, loopExitsAfter 0 0.01 (L : ℝ) 10 := by
  rintro ⟨L, hlt, hge⟩
  have h0 : (0:ℝ) + (0:ℕ) * 0.01 < (L : ℝ) := hlt 0 (by omega)
  have hL1 : (1:ℤ) ≤ L := by
    by_contra hcon
    push_neg at hcon
    have : (L : ℝ) ≤ 0 := by exact_mod_cast Int.lt_add_one_iff.mp (by omega)
    simp at h0
    linarith
  have hL1R : (1:ℝ) ≤ (L : ℝ) := by exact_mod_cast hL1
  apply hge
  push_cast
  linarith

/-- Witness for C6 with one joint group and genes `[1, 1, 1]`. -/
theorem C6_clock_accumulation_witness :
    ∃ s1 s2, runLoop idWorld 1 [1, 1, 1] 0.01 1 100 ⟨0, 0⟩
        = Except.ok (some s1) ∧ s1.x = 1 ∧
      runLoop idWorld 1 [1, 1, 1] 0.01 2 100 s1 = Except.ok (some s2) ∧ s2.x = 2 :=
  C6_clock_accumulation idWorld 1 [1, 1, 1] ⟨0, 0⟩ 100 100
    (by simp) rfl (le_refl 100) (le_refl 100)

/-- Geometry of one terrain obstacle as `Simulation::add_blocks`
builds it (simulation.cpp lines 47-74): center, the `ode::Box`
dimension arguments (`10` is the mass argument of the box
constructor), the rotation set by `set_rotation(0, -tilt, 0)`, and
the flag set by `fix()`. -/
structure Block where
  cx : ℝ
  cy : ℝ
  cz : ℝ
  mass : ℝ
  width : ℝ
  depth : ℝ
  height : ℝ
  rotX : ℝ
  rotY : ℝ
  rotZ : ℝ
  fixed : Bool

/-- One obstacle of `Simulation::add_blocks` (simulation.cpp lines
47-74), given the tilt and the three uniform draws of the iteration:
amplitude `a = rsize()` and offsets `offX, offY = rlocation()`.
Fixed Gaussian parameters `xc = -0.4`, `yc = 0`, `s = 0.5`;
`bsize = a·exp(-((x-xc)²/(2s²) + (y-yc)²/(2s²)))`; box footprint
`4·bsize × 4·bsize`, height `bsize`; vertical placement
`bsize/2 + tan(tilt)·(-x)`; rotated by `-tilt`; fixed. -/
noncomputable def makeBlock (tilt a offX offY : ℝ) : Block :=
  let xc : ℝ := -0.4
  let yc : ℝ := 0
  let s : ℝ := 0.5
  let x : ℝ := offX + xc
  let y : ℝ := offY + yc
  let bsize : ℝ :=
    a * Real.exp (-(((x - xc)^2 / (2*s^2)) + ((y - yc)^2 / (2*s^2))))
  { cx := x, cy := y, cz := bsize/2 + Real.tan tilt * (-x),
    mass := 10, width := bsize*4, depth := bsize*4, height := bsize,
    rotX := 0, rotY := -tilt, rotZ := 0, fixed := true }

/-- The whole of `Simulation::add_blocks`: one block per draw of the
time-seeded generator, the draws abstracted into a list. -/
noncomputable def addBlocks (tilt : ℝ) (draws : List (ℝ × ℝ × ℝ)) : List Block :=
  draws.map fun d => makeBlock tilt d.1 d.2.1 d.2.2

/-- Modelled from the spec wording (section 4.1): the closed-form 2-D
Gaussian `a · exp(-((x−xc)²/(2s²) + (y−yc)²/(2s²)))`. -/
noncomputable def gauss2d (a x y xc yc s : ℝ) : ℝ :=
  a * Real.exp (-((x - xc)^2 / (2*s^2) + (y - yc)^2 / (2*s^2)))

/-- Claim C7: every obstacle generated by `add_blocks` has linear
size equal to the 2-D Gaussian with `xc = -0.4`, `yc = 0`, `s = 0.5`
and its drawn amplitude, evaluated at the obstacle's own center; its
footprint is `4·bsize` in width and depth with height `bsize`; it
sits at `z = bsize/2 + tan(tilt)·(-x)`, is rotated by `-tilt` about
the ground's tilt axis, and is fixed. -/
theorem C7_block_geometry (tilt : ℝ) (draws : List (ℝ × ℝ × ℝ)) (b : Block)
    (hb : b ∈ addBlocks tilt draws) :
    ∃ a offX offY, (a, offX, offY) ∈ draws ∧ b = makeBlock tilt a offX offY ∧
      b.height = gauss2d a b.cx b.cy (-0.4) 0 0.5 ∧
      b.width = 4 * b.height ∧ b.depth = 4 * b.height ∧
      b.cz = b.height/2 + Real.tan tilt * (-b.cx) ∧
      b.rotX = 0 ∧ b.rotY = -tilt ∧ b.rotZ = 0 ∧ b.fixed = true := by
  obtain ⟨d, hd, rfl⟩ := List.mem_map.mp hb
  refine ⟨d.1, d.2.1, d.2.2, by simpa using hd, rfl, ?_, ?_, ?_, ?_, rfl, rfl, rfl, rfl⟩
  · simp only [makeBlock, gauss2d]
  · simp only [makeBlock]; ring
  · simp only [makeBlock]; ring
  · simp only [makeBlock]

/-- Witness for C7 on the single draw `(1, 0.2, 0.1)` with tilt
`0.3`. -/
theorem C7_block_geometry_witness :
    ∃ a offX offY, (a, offX, offY) ∈ [((1:ℝ), (0.2:ℝ), (0.1:ℝ))] ∧
      makeBlock 0.3 1 0.2 0.1 = makeBlock 0.3 a offX offY ∧
      (makeBlock 0.3 1 0.2 0.1).height
        = gauss2d a (makeBlock 0.3 1 0.2 0.1).cx (makeBlock 0.3 1 0.2 0.1).cy (-0.4) 0 0.5 ∧
      (makeBlock 0.3 1 0.2 0.1).width = 4 * (makeBlock 0.3 1 0.2 0.1).height ∧
      (makeBlock 0.3 1 0.2 0.1).depth = 4 * (makeBlock 0.3 1 0.2 0.1).height ∧
      (makeBlock 0.3 1 0.2 0.1).cz
        = (makeBlock 0.3 1 0.2 0.1).height/2
          + Real.tan 0.3 * (-(makeBlock 0.3 1 0.2 0.1).cx) ∧
      (makeBlock 0.3 1 0.2 0.1).rotX = 0 ∧
      (makeBlock 0.3 1 0.2 0.1).rotY = -0.3 ∧
      (makeBlock 0.3 1 0.2 0.1).rotZ = 0 ∧
      (makeBlock 0.3 1 0.2 0.1).fixed = true :=
  C7_block_geometry 0.3 [((1:ℝ), (0.2:ℝ), (0.1:ℝ))] (makeBlock 0.3 1 0.2 0.1)
    (by simp [addBlocks])

end Gait
